import Mathlib

/-!
Shallow embedding of `stocks.py` (Quote Fetch & Summarize Pipeline).

The program fetches historical daily stock prices per ticker, computes
min / max / mean / median of the closing prices and serializes the
resulting list of statistics records.  Machine floats are modelled as
rationals; Python exceptions are modelled with `Except`; the network is
modelled as an oracle mapping the (upper-cased) ticker to an outcome.
-/

namespace Stocks

/-- Python errors that the modelled code can raise.

`valueError` models `ValueError` (raised by `float(...)` on a malformed
string and by `min([])` / `max([])` on an empty sequence);
`typeError` models `TypeError` (subscripting `None`);
`statisticsError` models `statistics.StatisticsError`. -/
inductive PyError where
  | valueError : PyError
  | typeError : PyError
  | statisticsError : PyError
deriving DecidableEq, Repr

/-- A daily record of the `rows` sequence: the only field the program
reads is `close`, a currency string such as `"$123.45"`. -/
structure Row where
  close : String
deriving DecidableEq, Repr

/-- The `tradesTable` object: the program only reads its `rows` field. -/
structure TradesTable where
  rows : List Row
deriving DecidableEq, Repr

/-- The non-null payload of the `data` field: a symbol name and the
trades table. -/
structure QuoteData where
  symbol : String
  tradesTable : TradesTable
deriving DecidableEq, Repr

/-- The deserialized API response: a mapping whose `data` field is
either null (`none`) or a `QuoteData` payload. -/
structure RawResponse where
  data : Option QuoteData
deriving DecidableEq, Repr

/-- The derived per-ticker record `{min, max, avg, median, ticker}`. -/
structure Statistics where
  min : ℚ
  max : ℚ
  avg : ℚ
  median : ℚ
  ticker : String
deriving DecidableEq, Repr

/-- Python `ticker.upper()` (ASCII): upper-case every character. -/
def pyUpper (s : String) : String :=
  ⟨s.data.map Char.toUpper⟩

/-- Python `s.replace(c, "")` for a single-character pattern `c`:
removes every occurrence of the character. -/
def removeChar (c : Char) (s : String) : String :=
  ⟨s.data.filter (fun a => a ≠ c)⟩

/-- `row["close"].replace("$", "").replace(",", "")` from
`process_data` (line 65): strip every dollar sign and comma. -/
def stripCurrency (s : String) : String :=
  removeChar ',' (removeChar '$' s)

/-- Value of a digit string read in base 10 (positional value of the
digit characters). -/
def digitsToNat (l : List Char) : Nat :=
  l.foldl (fun n c => 10 * n + (c.toNat - 48)) 0

/-- Python `float(s)` on the fragment of its grammar the program can
feed it: an unsigned decimal numeral made of digits with at most one
decimal point (at least one digit overall); anything else raises
`ValueError`, modelled by `none`.  (Signs, exponents, `inf`/`nan`,
underscores and surrounding whitespace never reach `float` here.) -/
def pyFloat (s : String) : Option ℚ :=
  let cs := s.data
  let ip := cs.takeWhile (fun c => c ≠ '.')
  match cs.dropWhile (fun c => c ≠ '.') with
  | [] =>
      if ip ≠ [] ∧ ip.all Char.isDigit then
        some (digitsToNat ip : ℚ)
      else none
  | _ :: fp =>
      if (ip ≠ [] ∨ fp ≠ []) ∧ ip.all Char.isDigit ∧ fp.all Char.isDigit then
        some ((digitsToNat ip : ℚ) + (digitsToNat fp : ℚ) / (10 : ℚ) ^ fp.length)
      else none

/-- Python `min(list)`: `none` on the empty list (`ValueError`). -/
def listMin : List ℚ → Option ℚ
  | [] => none
  | x :: xs => some (xs.foldl Min.min x)

/-- Python `max(list)`: `none` on the empty list (`ValueError`). -/
def listMax : List ℚ → Option ℚ
  | [] => none
  | x :: xs => some (xs.foldl Max.max x)

/-- `statistics.mean`: sum divided by length, `none` on the empty list. -/
def pyMean (l : List ℚ) : Option ℚ :=
  if l.length = 0 then none else some (l.sum / (l.length : ℚ))

/-- Python `sorted(list)`: ascending stable sort (for a linear order
the sorted list of values is unique, so insertion sort realizes it). -/
def pySorted (l : List ℚ) : List ℚ :=
  l.insertionSort (· ≤ ·)

/-- `statistics.median`: middle element of the sorted list for odd
length, average of the two middles for even length, `none` on the
empty list. -/
def pyMedian (l : List ℚ) : Option ℚ :=
  let n := l.length
  if n = 0 then none
  else
    let s := pySorted l
    if n % 2 = 1 then some (s.getD (n / 2) 0)
    else some ((s.getD (n / 2 - 1) 0 + s.getD (n / 2) 0) / 2)

/-- The list comprehension of line 65: parse each close string in
order; the first `float` failure raises (`none`), models
`[float(row["close"].replace("$", "").replace(",", "")) for row in rows]`. -/
def closingPrices : List Row → Option (List ℚ)
  | [] => some []
  | r :: rs =>
    match pyFloat (stripCurrency r.close), closingPrices rs with
    | some q, some qs => some (q :: qs)
    | _, _ => none

/-- `process_data` (lines 54-73).  The argument and the result use
`Option` for the empty-dictionary sentinel: `none` stands for `{}`.
`Except` carries the Python exceptions the body can raise: a
`TypeError` when the `data` field is null but the dictionary is not
empty, a `ValueError` from `float` on a malformed close string, and a
`ValueError` from `min` when the price list is empty (evaluated
first among the four reductions). -/
def process_data (data : Option RawResponse) : Except PyError (Option Statistics) :=
  match data with
  | none => Except.ok none
  | some r =>
    match r.data with
    | none => Except.error PyError.typeError
    | some qd =>
      let rows := qd.tradesTable.rows
      match closingPrices rows with
      | none => Except.error PyError.valueError
      | some prices =>
        match listMin prices, listMax prices,
              pyMean prices, pyMedian prices with
        | some mn, some mx, some av, some md =>
            Except.ok (some ⟨mn, mx, av, md, qd.symbol⟩)
        | _, _, _, _ => Except.error PyError.valueError

/-- Outcome of the network interaction for one ticker: either some
exception inside the `try` block (transport error, non-success HTTP
status raised by `raise_for_status`, JSON decode error, missing key),
or a parsed response dictionary. -/
inductive NetOutcome where
  | exn (msg : String) : NetOutcome
  | ok (resp : RawResponse) : NetOutcome
deriving DecidableEq, Repr

/-- The network oracle: maps the upper-cased ticker to its outcome. -/
def Net : Type := String → NetOutcome

/-- Status line printed on success (line 47). -/
def msgAcquired (t : String) : String :=
  "Data acquired for ticker " ++ t

/-- Diagnostic printed when the `data` field is null (line 44). -/
def msgNoData (t : String) : String :=
  "Data acquisition error for ticker " ++ t ++ ": no data found"

/-- Diagnostic printed when an exception is caught (line 50). -/
def msgExn (t e : String) : String :=
  "Data acquisition error for ticker " ++ t ++ ": " ++ e

/-- `download_data` (lines 19-52).  Returns the result (`none` models
the `{}` sentinel), the printed lines, and the list of network
requests issued.  Every exception inside the `try` block is caught and
turned into a diagnostic plus the sentinel. -/
def download_data (net : Net) (ticker : String) :
    Option RawResponse × List String × List String :=
  let t := pyUpper ticker
  match net t with
  | NetOutcome.exn e => (none, [msgExn t e], [t])
  | NetOutcome.ok resp =>
    match resp.data with
    | none => (none, [msgNoData t], [t])
    | some _ => (some resp, [msgAcquired t], [t])

/-- Decimal-point rendering of a rational, exact when the denominator
is 1 wherein Python prints a trailing `.0`; other denominators are
shown as a fraction.  Models the numeric rendering of `json.dumps`
abstractly (Python renders the shortest round-tripping decimal of the
IEEE-754 double; no proved claim depends on this string). -/
def renderRat (q : ℚ) : String :=
  if q.den = 1 then toString q.num ++ ".0"
  else toString q.num ++ "/" ++ toString q.den

/-- `json.dumps` of one `Statistics` record, keys in insertion order. -/
def renderStat (s : Statistics) : String :=
  "\x7b\x22min\x22: " ++ renderRat s.min ++
  ", \x22max\x22: " ++ renderRat s.max ++
  ", \x22avg\x22: " ++ renderRat s.avg ++
  ", \x22median\x22: " ++ renderRat s.median ++
  ", \x22ticker\x22: \x22" ++ s.ticker ++ "\x22\x7d"

/-- `json.dumps(stats_list, indent=4)` (line 89): the serialized
ResultSet, modelled as the records joined inside brackets. -/
def dumps (l : List Statistics) : String :=
  "[" ++ String.intercalate ", " (l.map renderStat) ++ "]"

/-- Per-ticker pipeline step of the `main` loop (lines 84-85):
download then process.  Returns the printed lines, the issued network
calls, and the processing result. -/
def runTicker (net : Net) (t : String) :
    List String × List String × Except PyError (Option Statistics) :=
  let (res, out, calls) := download_data net t
  (out, calls, process_data res)

/-- The `for` loop of `main` (lines 83-87): accumulates the statistics
of the tickers in order, skipping empty results; an uncaught exception
from `process_data` aborts the whole loop. -/
def processTickers (net : Net) : List String →
    Except PyError (List Statistics × List String × List String)
  | [] => Except.ok ([], [], [])
  | t :: ts =>
    let (out, calls, r) := runTicker net t
    match r with
    | Except.error e => Except.error e
    | Except.ok os =>
      match processTickers net ts with
      | Except.error e => Except.error e
      | Except.ok (stats, outs, callss) =>
          Except.ok (os.toList ++ stats, out ++ outs, calls ++ callss)

/-- The usage string printed for zero ticker arguments (line 78). -/
def usageMsg : String := "Usage: python stocks.py <TICKER1> ..."

/-- Confirmation printed after a successful file write (line 95). -/
def msgWritten : String := "\nData written to stocks.json"

/-- Diagnostic printed when the file write raises (line 97); the
exception text is abstracted away. -/
def msgWriteError : String := "Error writing to file"

/-- Observable result of a run of `main` that did not crash. -/
structure MainResult where
  exitCode : Nat
  output : List String
  stats : List Statistics
  fileWrite : Option String
  netCalls : List String
deriving DecidableEq, Repr

/-- `main` (lines 75-97).  `argv` is `sys.argv` (program name first);
`writeOk` models whether opening/writing `stocks.json` succeeds.
`sys.exit(1)` is modelled as a normal result with exit code 1; an
uncaught `PyError` (a crash) is the `Except.error` case; every other
run ends with exit code 0.  `fileWrite` is the content written to
`stocks.json` (`none` when the write failed or was never reached). -/
def main (net : Net) (writeOk : Bool) (argv : List String) :
    Except PyError MainResult :=
  if argv.length < 2 then
    Except.ok ⟨1, [usageMsg], [], none, []⟩
  else
    match processTickers net (argv.drop 1) with
    | Except.error e => Except.error e
    | Except.ok (stats_list, out, calls) =>
      let serialized := dumps stats_list
      if writeOk then
        Except.ok ⟨0, out ++ [serialized, msgWritten], stats_list, some serialized, calls⟩
      else
        Except.ok ⟨0, out ++ [serialized, msgWriteError], stats_list, none, calls⟩

/-- The statistics record a single ticker contributes (if any): the
per-ticker pipeline result with crashes and the sentinel mapped to
`none`. -/
def statOf (net : Net) (t : String) : Option Statistics :=
  match process_data (download_data net t).1 with
  | Except.ok o => o
  | Except.error _ => none

/-- A currency string in the notation the API uses (the quantified
object of the parsing claim): a dollar sign, a first digit group,
further comma-separated digit groups, then a decimal point and a
fractional digit part, e.g. `"$1,234.56"`. -/
def mkCurrency (g0 : List Char) (gs : List (List Char)) (fp : List Char) : String :=
  ⟨'$' :: (g0 ++ (gs.map (fun g => ',' :: g)).flatten ++ '.' :: fp)⟩

/-- The decimal value denoted by integer digits `ds` and fractional
digits `fp`. -/
def decimalValue (ds fp : List Char) : ℚ :=
  (digitsToNat ds : ℚ) + (digitsToNat fp : ℚ) / (10 : ℚ) ^ fp.length

/-! ### Bounds of the four reductions -/

theorem foldl_min_le_init (xs : List ℚ) (x : ℚ) : xs.foldl Min.min x ≤ x := by
  induction xs generalizing x with
  | nil => exact le_refl x
  | cons a as ih => exact le_trans (ih (min x a)) (min_le_left _ _)

theorem foldl_min_le_mem (xs : List ℚ) (x y : ℚ) (hy : y ∈ xs) :
    xs.foldl Min.min x ≤ y := by
  induction xs generalizing x with
  | nil => simp at hy
  | cons a as ih =>
    rcases List.mem_cons.1 hy with rfl | hy2
    · exact le_trans (foldl_min_le_init as (min x y)) (min_le_right _ _)
    · exact ih (min x a) hy2

theorem foldl_min_mem (xs : List ℚ) (x : ℚ) : xs.foldl Min.min x ∈ x :: xs := by
  induction xs generalizing x with
  | nil => exact List.mem_cons_self _ _
  | cons a as ih =>
    have h := ih (min x a)
    rcases List.mem_cons.1 h with h1 | h1
    · rcases min_choice x a with h2 | h2
      · exact List.mem_cons.2 (Or.inl (h1.trans h2))
      · exact List.mem_cons.2 (Or.inr (List.mem_cons.2 (Or.inl (h1.trans h2))))
    · exact List.mem_cons.2 (Or.inr (List.mem_cons.2 (Or.inr h1)))

theorem le_foldl_max_init (xs : List ℚ) (x : ℚ) : x ≤ xs.foldl Max.max x := by
  induction xs generalizing x with
  | nil => exact le_refl x
  | cons a as ih => exact le_trans (le_max_left _ _) (ih (max x a))

theorem le_foldl_max_mem (xs : List ℚ) (x y : ℚ) (hy : y ∈ xs) :
    y ≤ xs.foldl Max.max x := by
  induction xs generalizing x with
  | nil => simp at hy
  | cons a as ih =>
    rcases List.mem_cons.1 hy with rfl | hy2
    · exact le_trans (le_max_right _ _) (le_foldl_max_init as (max x y))
    · exact ih (max x a) hy2

theorem foldl_max_mem (xs : List ℚ) (x : ℚ) : xs.foldl Max.max x ∈ x :: xs := by
  induction xs generalizing x with
  | nil => exact List.mem_cons_self _ _
  | cons a as ih =>
    have h := ih (max x a)
    rcases List.mem_cons.1 h with h1 | h1
    · rcases max_choice x a with h2 | h2
      · exact List.mem_cons.2 (Or.inl (h1.trans h2))
      · exact List.mem_cons.2 (Or.inr (List.mem_cons.2 (Or.inl (h1.trans h2))))
    · exact List.mem_cons.2 (Or.inr (List.mem_cons.2 (Or.inr h1)))

/-- `min(list)` returns an element of the list that is a lower bound. -/
theorem listMin_spec {l : List ℚ} {m : ℚ} (h : listMin l = some m) :
    m ∈ l ∧ ∀ y ∈ l, m ≤ y := by
  cases l with
  | nil => simp [listMin] at h
  | cons x xs =>
    simp only [listMin, Option.some.injEq] at h
    subst h
    refine ⟨foldl_min_mem xs x, fun y hy => ?_⟩
    rcases List.mem_cons.1 hy with rfl | hy2
    · exact foldl_min_le_init xs y
    · exact foldl_min_le_mem xs x y hy2

/-- `max(list)` returns an element of the list that is an upper bound. -/
theorem listMax_spec {l : List ℚ} {M : ℚ} (h : listMax l = some M) :
    M ∈ l ∧ ∀ y ∈ l, y ≤ M := by
  cases l with
  | nil => simp [listMax] at h
  | cons x xs =>
    simp only [listMax, Option.some.injEq] at h
    subst h
    refine ⟨foldl_max_mem xs x, fun y hy => ?_⟩
    rcases List.mem_cons.1 hy with rfl | hy2
    · exact le_foldl_max_init xs y
    · exact le_foldl_max_mem xs x y hy2

/-- The arithmetic mean lies between any lower and any upper bound of
the (non-empty) list. -/
theorem pyMean_between {l : List ℚ} {m M av : ℚ}
    (hm : ∀ y ∈ l, m ≤ y) (hM : ∀ y ∈ l, y ≤ M)
    (h : pyMean l = some av) : m ≤ av ∧ av ≤ M := by
  have hne : l.length ≠ 0 := by
    intro h0; simp [pyMean, h0] at h
  have hpos : (0 : ℚ) < (l.length : ℚ) := by
    exact_mod_cast Nat.pos_of_ne_zero hne
  have hav : av = l.sum / (l.length : ℚ) := by
    simp only [pyMean, hne, if_false, Option.some.injEq] at h
    exact h.symm
  have hlow : (l.length : ℚ) * m ≤ l.sum := by
    have := List.card_nsmul_le_sum l m hm
    simpa [nsmul_eq_mul] using this
  have hhigh : l.sum ≤ (l.length : ℚ) * M := by
    have := List.sum_le_card_nsmul l M hM
    simpa [nsmul_eq_mul] using this
  constructor
  · rw [hav, le_div_iff₀ hpos]
    linarith
  · rw [hav, div_le_iff₀ hpos]
    linarith

/-- Every element that `pyMedian` averages is a member of the list. -/
theorem pySorted_getD_mem {l : List ℚ} {i : Nat} (h : i < l.length) :
    (pySorted l).getD i 0 ∈ l := by
  have hperm : (pySorted l).Perm l := List.perm_insertionSort _ l
  have hlen : (pySorted l).length = l.length := hperm.length_eq
  have hi : i < (pySorted l).length := by rw [hlen]; exact h
  rw [List.getD_eq_getElem (pySorted l) 0 hi]
  exact hperm.mem_iff.1 (List.getElem_mem hi)

/-- The median lies between any lower and any upper bound of the
(non-empty) list. -/
theorem pyMedian_between {l : List ℚ} {m M md : ℚ}
    (hm : ∀ y ∈ l, m ≤ y) (hM : ∀ y ∈ l, y ≤ M)
    (h : pyMedian l = some md) : m ≤ md ∧ md ≤ M := by
  have hne : l.length ≠ 0 := by
    intro h0; simp [pyMedian, h0] at h
  have hpos : 0 < l.length := Nat.pos_of_ne_zero hne
  simp only [pyMedian, hne, if_false] at h
  by_cases hodd : l.length % 2 = 1
  · rw [if_pos hodd] at h
    have hmem : (pySorted l).getD (l.length / 2) 0 ∈ l :=
      pySorted_getD_mem (Nat.div_lt_of_lt_mul (by omega))
    rcases Option.some.inj h with rfl
    exact ⟨hm _ hmem, hM _ hmem⟩
  · rw [if_neg hodd] at h
    have h2 : 2 ≤ l.length := by omega
    have hmem1 : (pySorted l).getD (l.length / 2 - 1) 0 ∈ l :=
      pySorted_getD_mem (by omega)
    have hmem2 : (pySorted l).getD (l.length / 2) 0 ∈ l :=
      pySorted_getD_mem (Nat.div_lt_of_lt_mul (by omega))
    rcases Option.some.inj h with rfl
    constructor
    · have := hm _ hmem1; have := hm _ hmem2; linarith
    · have := hM _ hmem1; have := hM _ hmem2; linarith

/-- C1: for every response with a non-empty sequence of daily records
(and hence whenever `process_data` succeeds with a record), the
returned Statistics satisfies min ≤ avg ≤ max and min ≤ median ≤ max
over the parsed closing prices. -/
theorem process_data_stats_ordered {r : RawResponse} {st : Statistics}
    (h : process_data (some r) = Except.ok (some st)) :
    st.min ≤ st.avg ∧ st.avg ≤ st.max ∧ st.min ≤ st.median ∧ st.median ≤ st.max := by
  simp only [process_data] at h
  split at h
  · exact absurd h (by simp)
  split at h
  · exact absurd h (by simp)
  split at h
  case _ prices mn mx av md hmn hmx hav hmd =>
    simp only [Except.ok.injEq, Option.some.injEq] at h
    subst h
    obtain ⟨-, hmn_lb⟩ := listMin_spec hmn
    obtain ⟨-, hmx_ub⟩ := listMax_spec hmx
    obtain ⟨h1, h2⟩ := pyMean_between hmn_lb hmx_ub hav
    obtain ⟨h3, h4⟩ := pyMedian_between hmn_lb hmx_ub hmd
    exact ⟨h1, h2, h3, h4⟩
  · exact absurd h (by simp)

/-- C3: `download_data` never propagates an exception: any exception
raised inside the `try` block (transport error, non-success HTTP
status, JSON error) and the null-data case each yield exactly one
diagnostic line and the empty-dictionary sentinel. -/
theorem download_data_total (net : Net) (ticker : String) :
    (∀ e, net (pyUpper ticker) = NetOutcome.exn e →
      download_data net ticker =
        (none, [msgExn (pyUpper ticker) e], [pyUpper ticker])) ∧
    (∀ resp, net (pyUpper ticker) = NetOutcome.ok resp → resp.data = none →
      download_data net ticker =
        (none, [msgNoData (pyUpper ticker)], [pyUpper ticker])) := by
  constructor
  · intro e he
    simp [download_data, he]
  · intro resp hr hd
    simp [download_data, hr, hd]

/-- Witness for C3: a transport failure for ticker `aapl` produces the
sentinel and one diagnostic line. -/
theorem download_data_total_witness :
    download_data (fun _ => NetOutcome.exn "connection refused") "aapl" =
      (none, [msgExn "AAPL" "connection refused"], ["AAPL"]) := by
  have h := (download_data_total (fun _ => NetOutcome.exn "connection refused") "aapl").1
    "connection refused" rfl
  simpa using h

/-- C5: with fewer than two argv entries the program prints the usage
string and exits with status 1, having issued no network request. -/
theorem main_usage_exit {argv : List String} (h : argv.length < 2)
    (net : Net) (w : Bool) :
    main net w argv = Except.ok ⟨1, [usageMsg], [], none, []⟩ := by
  simp [main, h]

/-- Witness for C5: a bare `python stocks.py` invocation. -/
theorem main_usage_exit_witness :
    main (fun _ => NetOutcome.exn "unreachable") true ["stocks.py"] =
      Except.ok ⟨1, [usageMsg], [], none, []⟩ :=
  main_usage_exit (by decide) _ _

/-- C6: with at least one ticker argument, a run that does not crash
exits with status 0 whatever the per-ticker outcomes and whatever the
file write does; the serialized ResultSet is printed to stdout before
the file-write confirmation or error line, and a failed write changes
only that last line. -/
theorem main_exit_zero {argv : List String} {net : Net} {w : Bool} {r : MainResult}
    (h2 : 2 ≤ argv.length) (h : main net w argv = Except.ok r) :
    r.exitCode = 0 ∧
    (∃ pre, r.output = pre ++ [dumps r.stats, if w then msgWritten else msgWriteError]) ∧
    r.fileWrite = (if w then some (dumps r.stats) else none) := by
  have hlt : ¬ argv.length < 2 := by omega
  simp only [main, hlt, if_false] at h
  cases hp : processTickers net (argv.drop 1) with
  | error e => rw [hp] at h; exact absurd h (by simp)
  | ok z =>
    obtain ⟨stats, out, calls⟩ := z
    rw [hp] at h
    cases w with
    | true =>
      simp only [if_true] at h
      rcases Except.ok.inj h with rfl
      exact ⟨rfl, ⟨out, by simp⟩, by simp⟩
    | false =>
      simp only [Bool.false_eq_true, if_false] at h
      rcases Except.ok.inj h with rfl
      exact ⟨rfl, ⟨out, by simp⟩, by simp⟩

/-- Witness for C6: one ticker whose fetch fails, with a failing file
write: exit code 0, serialization printed, nothing written. -/
theorem main_exit_zero_witness :
    (main (fun _ => NetOutcome.exn "boom") false ["stocks.py", "x"] =
      Except.ok ⟨0, [msgExn "X" "boom", dumps [], msgWriteError], [], none, ["X"]⟩) ∧
    (0 = 0 ∧
      (∃ pre, [msgExn "X" "boom", dumps [], msgWriteError] =
        pre ++ [dumps ([] : List Statistics), if false then msgWritten else msgWriteError]) ∧
      (none : Option String) = (if false then some (dumps ([] : List Statistics)) else none)) := by
  have hrun : main (fun _ => NetOutcome.exn "boom") false ["stocks.py", "x"] =
      Except.ok ⟨0, [msgExn "X" "boom", dumps [], msgWriteError], [], none, ["X"]⟩ := by
    simp +decide [main, processTickers, runTicker, download_data, process_data]
  refine ⟨hrun, ?_⟩
  have h := main_exit_zero (by decide) hrun
  simpa using h

/-! ### The per-ticker loop -/

/-- A successful loop pass collects exactly the per-ticker statistics,
in argument order. -/
theorem processTickers_stats {net : Net} {ts : List String}
    {stats : List Statistics} {out calls : List String}
    (h : processTickers net ts = Except.ok (stats, out, calls)) :
    stats = ts.filterMap (statOf net) := by
  induction ts generalizing stats out calls with
  | nil =>
    simp only [processTickers, Except.ok.injEq] at h
    rcases h with ⟨rfl, -, -⟩
    rfl
  | cons t ts' ih =>
    simp only [processTickers, runTicker] at h
    cases hr : process_data (download_data net t).1 with
    | error e => rw [hr] at h; exact absurd h (by simp)
    | ok os =>
      rw [hr] at h
      cases hrec : processTickers net ts' with
      | error e => rw [hrec] at h; exact absurd h (by simp)
      | ok z =>
        obtain ⟨stats', out', calls'⟩ := z
        rw [hrec] at h
        simp only [Except.ok.injEq, Prod.mk.injEq] at h
        rcases h with ⟨rfl, -, -⟩
        have hs := ih hrec
        subst hs
        simp [List.filterMap_cons, statOf, hr]
        cases os <;> simp

/-- If no ticker makes `process_data` raise, the loop terminates
normally. -/
theorem processTickers_total {net : Net} {ts : List String}
    (h : ∀ u ∈ ts, ∃ o, process_data (download_data net u).1 = Except.ok o) :
    ∃ z, processTickers net ts = Except.ok z := by
  induction ts with
  | nil => exact ⟨([], [], []), rfl⟩
  | cons t ts' ih =>
    obtain ⟨o, ho⟩ := h t (List.mem_cons_self _ _)
    obtain ⟨⟨stats', out', calls'⟩, hz⟩ :=
      ih (fun u hu => h u (List.mem_cons_of_mem t hu))
    refine ⟨(o.toList ++ stats', (download_data net t).2.1 ++ out',
      (download_data net t).2.2 ++ calls'), ?_⟩
    simp only [processTickers, runTicker, ho, hz]

/-- A list on which `f` never returns `none` keeps its length under
`filterMap`. -/
theorem length_filterMap_all_some {α β : Type} (f : α → Option β) (l : List α)
    (h : ∀ u ∈ l, ∃ s, f u = some s) : (l.filterMap f).length = l.length := by
  induction l with
  | nil => rfl
  | cons a l' ih =>
    obtain ⟨s, hs⟩ := h a (List.mem_cons_self _ _)
    rw [List.filterMap_cons, hs]
    simp [ih (fun u hu => h u (List.mem_cons_of_mem a hu))]

/-- C2: on a synthetic response with closing prices `"$10.00"`,
`"$20.00"`, `"$30.00"` and any symbol, `process_data` returns
min 10, max 30, avg 20, median 20 and that symbol. -/
theorem process_data_sample (sym : String) :
    process_data (some ⟨some ⟨sym, ⟨[⟨"$10.00"⟩, ⟨"$20.00"⟩, ⟨"$30.00"⟩]⟩⟩⟩) =
      Except.ok (some ⟨10, 30, 20, 20, sym⟩) := by
  simp +decide [process_data, closingPrices, pyFloat, stripCurrency, removeChar, digitsToNat,
    listMin, listMax, pyMean, pyMedian, pySorted, List.insertionSort, List.orderedInsert,
    min_def, max_def]
  norm_num

/-- Witness for C1: the bounds at a concrete three-row response. -/
theorem process_data_stats_ordered_witness :
    (10 : ℚ) ≤ 20 ∧ (20 : ℚ) ≤ 30 ∧ (10 : ℚ) ≤ 20 ∧ (20 : ℚ) ≤ 30 := by
  have h : process_data (some ⟨some ⟨"SYM", ⟨[⟨"$10.00"⟩, ⟨"$20.00"⟩, ⟨"$30.00"⟩]⟩⟩⟩) =
      Except.ok (some ⟨10, 30, 20, 20, "SYM"⟩) := by
    simp +decide [process_data, closingPrices, pyFloat, stripCurrency, removeChar, digitsToNat,
      listMin, listMax, pyMean, pyMedian, pySorted, List.insertionSort, List.orderedInsert,
      min_def, max_def]
    norm_num
  exact process_data_stats_ordered h

/-- C4: a response whose `data` field is present but whose `rows`
sequence is empty makes `process_data` raise (the `min` reduction has
no element), and `main` does not catch the error: the program crashes
instead of producing a result. -/
theorem process_data_empty_rows_raises :
    (∀ sym : String,
      process_data (some ⟨some ⟨sym, ⟨[]⟩⟩⟩) = Except.error PyError.valueError) ∧
    (∀ (net : Net) (w : Bool) (p t sym : String),
      net (pyUpper t) = NetOutcome.ok ⟨some ⟨sym, ⟨[]⟩⟩⟩ →
      main net w [p, t] = Except.error PyError.valueError) := by
  have h1 : ∀ sym : String,
      process_data (some ⟨some ⟨sym, ⟨[]⟩⟩⟩) = Except.error PyError.valueError := by
    intro sym
    rfl
  refine ⟨h1, ?_⟩
  intro net w p t sym hnet
  have hdl : download_data net t =
      (some ⟨some ⟨sym, ⟨[]⟩⟩⟩, [msgAcquired (pyUpper t)], [pyUpper t]) := by
    simp [download_data, hnet]
  simp [main, processTickers, runTicker, hdl, h1 sym]

/-- Witness for C4: a concrete two-argument run over a network that
returns an empty `rows` table crashes with the `ValueError`. -/
theorem process_data_empty_rows_raises_witness :
    main (fun _ => NetOutcome.ok ⟨some ⟨"S", ⟨[]⟩⟩⟩) true ["stocks.py", "s"] =
      Except.error PyError.valueError :=
  process_data_empty_rows_raises.2 (fun _ => NetOutcome.ok ⟨some ⟨"S", ⟨[]⟩⟩⟩)
    true "stocks.py" "s" "S" rfl

/-- C9: `process_data` maps the empty sentinel to the empty sentinel,
and a ticker whose fetch returns a null `data` field contributes no
record: when every other ticker yields a record, the ResultSet is one
shorter than the ticker count. -/
theorem process_data_sentinel_and_skip :
    process_data none = Except.ok none ∧
    ∀ (net : Net) (w : Bool) (p t : String) (pre post : List String),
      net (pyUpper t) = NetOutcome.ok ⟨none⟩ →
      (∀ u ∈ pre ++ post, ∃ s,
        process_data (download_data net u).1 = Except.ok (some s)) →
      ∃ r, main net w (p :: (pre ++ t :: post)) = Except.ok r ∧
        r.stats.length = (pre ++ t :: post).length - 1 := by
  refine ⟨rfl, ?_⟩
  intro net w p t pre post hnet hok
  have hdl1 : (download_data net t).1 = none := by
    simp [download_data, hnet]
  have htot : ∀ u ∈ pre ++ t :: post, ∃ o,
      process_data (download_data net u).1 = Except.ok o := by
    intro u hu
    rcases List.mem_append.1 hu with h1 | h1
    · obtain ⟨s, hs⟩ := hok u (List.mem_append_left _ h1)
      exact ⟨some s, hs⟩
    · rcases List.mem_cons.1 h1 with rfl | h2
      · exact ⟨none, by rw [hdl1]; rfl⟩
      · obtain ⟨s, hs⟩ := hok u (List.mem_append_right _ h2)
        exact ⟨some s, hs⟩
  obtain ⟨⟨stats, out, calls⟩, hz⟩ := processTickers_total htot
  have hlen : ¬ (p :: (pre ++ t :: post)).length < 2 := by
    simp only [List.length_cons, List.length_append]
    omega
  have hstats : stats = (pre ++ t :: post).filterMap (statOf net) :=
    processTickers_stats hz
  have hstat_t : statOf net t = none := by
    simp [statOf, hdl1, process_data]
  have hsome : ∀ u ∈ pre ++ post, ∃ s, statOf net u = some s := by
    intro u hu
    obtain ⟨s, hs⟩ := hok u hu
    exact ⟨s, by simp [statOf, hs]⟩
  have hcount : stats.length = (pre ++ t :: post).length - 1 := by
    rw [hstats, List.filterMap_append, List.filterMap_cons, hstat_t]
    rw [List.length_append]
    rw [length_filterMap_all_some _ pre (fun u hu => hsome u (List.mem_append_left _ hu))]
    rw [length_filterMap_all_some _ post (fun u hu => hsome u (List.mem_append_right _ hu))]
    simp [List.length_append]
  cases w with
  | true =>
    refine ⟨⟨0, out ++ [dumps stats, msgWritten], stats, some (dumps stats), calls⟩, ?_, hcount⟩
    simp only [main, hlen, if_false, List.drop_succ_cons, List.drop_zero, hz, if_true]
  | false =>
    refine ⟨⟨0, out ++ [dumps stats, msgWriteError], stats, none, calls⟩, ?_, hcount⟩
    simp only [main, hlen, if_false, List.drop_succ_cons, List.drop_zero, hz,
      Bool.false_eq_true]

/-- Witness for C9: three tickers, the middle one with a null `data`
field, the outer two with one-row tables: two records remain. -/
theorem process_data_sentinel_and_skip_witness :
    ∃ r, main
        (fun u => if u = "B" then NetOutcome.ok ⟨none⟩
          else NetOutcome.ok ⟨some ⟨u, ⟨[⟨"$1.00"⟩]⟩⟩⟩)
        true ["stocks.py", "a", "b", "c"] = Except.ok r ∧
      r.stats.length = (["a"] ++ "b" :: ["c"]).length - 1 := by
  have h := process_data_sentinel_and_skip.2
    (fun u => if u = "B" then NetOutcome.ok ⟨none⟩
      else NetOutcome.ok ⟨some ⟨u, ⟨[⟨"$1.00"⟩]⟩⟩⟩)
    true "stocks.py" "b" ["a"] ["c"] (by decide) ?side
  · obtain ⟨r, hr, hlen⟩ := h
    exact ⟨r, hr, hlen⟩
  · intro u hu
    rcases List.mem_cons.1 hu with rfl | hu2
    · refine ⟨⟨1, 1, 1, 1, "A"⟩, ?_⟩
      have hdl : (download_data
          (fun u => if u = "B" then NetOutcome.ok ⟨none⟩
            else NetOutcome.ok ⟨some ⟨u, ⟨[⟨"$1.00"⟩]⟩⟩⟩) "a").1 =
          some ⟨some ⟨"A", ⟨[⟨"$1.00"⟩]⟩⟩⟩ := by decide
      rw [hdl]
      simp +decide [process_data, closingPrices, pyFloat, stripCurrency, removeChar,
        digitsToNat, listMin, listMax, pyMean, pyMedian, pySorted, List.insertionSort,
        List.orderedInsert, min_def, max_def]
    · rcases List.mem_cons.1 hu2 with rfl | hu3
      · refine ⟨⟨1, 1, 1, 1, "C"⟩, ?_⟩
        have hdl : (download_data
            (fun u => if u = "B" then NetOutcome.ok ⟨none⟩
              else NetOutcome.ok ⟨some ⟨u, ⟨[⟨"$1.00"⟩]⟩⟩⟩) "c").1 =
            some ⟨some ⟨"C", ⟨[⟨"$1.00"⟩]⟩⟩⟩ := by decide
        rw [hdl]
        simp +decide [process_data, closingPrices, pyFloat, stripCurrency, removeChar,
          digitsToNat, listMin, listMax, pyMean, pyMedian, pySorted, List.insertionSort,
          List.orderedInsert, min_def, max_def]
      · exact absurd hu3 (by simp)

/-- C10: the ResultSet is the order-preserving image of the ticker
arguments under the per-ticker pipeline (`filterMap`): at most one
record per argument, never more records than arguments, duplicated
arguments yield duplicated records, and records keep argument order. -/
theorem main_stats_filterMap {net : Net} {w : Bool} {p : String} {ts : List String}
    {r : MainResult} (h : main net w (p :: ts) = Except.ok r) :
    r.stats = ts.filterMap (statOf net) ∧ r.stats.length ≤ ts.length := by
  by_cases hlen : (p :: ts).length < 2
  · have hts : ts = [] := by
      cases ts with
      | nil => rfl
      | cons a b => exact absurd hlen (by simp)
    subst hts
    simp only [main, hlen, if_true] at h
    rcases Except.ok.inj h with rfl
    simp
  · simp only [main, hlen, if_false, List.drop_succ_cons, List.drop_zero] at h
    cases hp : processTickers net ts with
    | error e => rw [hp] at h; exact absurd h (by simp)
    | ok z =>
      obtain ⟨stats, out, calls⟩ := z
      rw [hp] at h
      have hstats : stats = ts.filterMap (statOf net) := processTickers_stats hp
      cases w with
      | true =>
        simp only [if_true] at h
        rcases Except.ok.inj h with rfl
        exact ⟨hstats, hstats ▸ List.length_filterMap_le _ _⟩
      | false =>
        simp only [Bool.false_eq_true, if_false] at h
        rcases Except.ok.inj h with rfl
        exact ⟨hstats, hstats ▸ List.length_filterMap_le _ _⟩

/-- Witness for C10: a duplicated ticker argument over a null-data
network: the ResultSet is the filterMap of the two arguments and its
length is at most 2. -/
theorem main_stats_filterMap_witness :
    ∃ r, main (fun _ => NetOutcome.ok ⟨none⟩) true ["stocks.py", "a", "a"] =
      Except.ok r ∧
    r.stats = ["a", "a"].filterMap (statOf (fun _ => NetOutcome.ok ⟨none⟩)) ∧
    r.stats.length ≤ 2 := by
  have hrun : main (fun _ => NetOutcome.ok ⟨none⟩) true ["stocks.py", "a", "a"] =
      Except.ok ⟨0, [msgNoData "A", msgNoData "A", dumps [], msgWritten], [],
        some (dumps []), ["A", "A"]⟩ := by
    simp +decide [main, processTickers, runTicker, download_data, process_data]
  obtain ⟨h1, h2⟩ := main_stats_filterMap hrun
  exact ⟨_, hrun, h1, h2⟩

/-! ### Currency-string parsing -/

theorem ne_specials_of_isDigit {c : Char} (hc : c.isDigit = true) :
    c ≠ '$' ∧ c ≠ ',' ∧ c ≠ '.' := by
  refine ⟨?_, ?_, ?_⟩ <;> intro h <;> rw [h] at hc <;> exact absurd hc (by decide)

theorem filter_ne_eq_self (x : Char) (l : List Char) (h : ∀ c ∈ l, c ≠ x) :
    l.filter (fun a => a ≠ x) = l :=
  List.filter_eq_self.2 (fun a ha => by simpa using h a ha)

theorem filter_comma_flatten (gs : List (List Char))
    (h : ∀ g ∈ gs, ∀ c ∈ g, c.isDigit = true) :
    ((gs.map (fun g => ',' :: g)).flatten).filter (fun a => a ≠ ',') = gs.flatten := by
  induction gs with
  | nil => rfl
  | cons g gs' ih =>
    have hg : g.filter (fun a => a ≠ ',') = g :=
      filter_ne_eq_self ',' g
        (fun c hc => (ne_specials_of_isDigit (h g (List.mem_cons_self _ _) c hc)).2.1)
    have ih2 := ih (fun g2 hg2 => h g2 (List.mem_cons_of_mem g hg2))
    simp only [List.map_cons, List.flatten_cons, List.filter_append, List.filter_cons]
    rw [if_neg (by decide), hg, ih2]

theorem takeWhile_append_all (p : Char → Bool) (d l : List Char)
    (hd : ∀ c ∈ d, p c = true) :
    (d ++ l).takeWhile p = d ++ l.takeWhile p := by
  induction d with
  | nil => rfl
  | cons a as ih =>
    have ha : p a = true := hd a (List.mem_cons_self _ _)
    simp only [List.cons_append, List.takeWhile_cons, ha, if_true]
    rw [ih (fun c hc => hd c (List.mem_cons_of_mem a hc))]

theorem dropWhile_append_all (p : Char → Bool) (d l : List Char)
    (hd : ∀ c ∈ d, p c = true) :
    (d ++ l).dropWhile p = l.dropWhile p := by
  induction d with
  | nil => rfl
  | cons a as ih =>
    have ha : p a = true := hd a (List.mem_cons_self _ _)
    simp only [List.cons_append, List.dropWhile_cons, ha, if_true]
    exact ih (fun c hc => hd c (List.mem_cons_of_mem a hc))

/-- C7: stripping `$` and `,` and parsing maps every comma-grouped
currency string with a decimal part to the decimal value denoted by
its digits. -/
theorem currency_parse (g0 : List Char) (gs : List (List Char)) (fp : List Char)
    (hg0 : g0 ≠ []) (hg0d : ∀ c ∈ g0, c.isDigit = true)
    (hgsd : ∀ g ∈ gs, ∀ c ∈ g, c.isDigit = true)
    (hfpd : ∀ c ∈ fp, c.isDigit = true) :
    pyFloat (stripCurrency (mkCurrency g0 gs fp)) =
      some (decimalValue (g0 ++ gs.flatten) fp) := by
  have hd : ∀ c ∈ g0 ++ gs.flatten, c.isDigit = true := by
    intro c hc
    rcases List.mem_append.1 hc with h1 | h1
    · exact hg0d c h1
    · rcases List.mem_flatten.1 h1 with ⟨g, hg, hcg⟩
      exact hgsd g hg c hcg
  have hmid : ∀ c ∈ (gs.map (fun g => ',' :: g)).flatten,
      c = ',' ∨ c.isDigit = true := by
    intro c hc
    rcases List.mem_flatten.1 hc with ⟨l, hl, hcl⟩
    rcases List.mem_map.1 hl with ⟨g, hg, rfl⟩
    rcases List.mem_cons.1 hcl with rfl | h2
    · exact Or.inl rfl
    · exact Or.inr (hgsd g hg c h2)
  have hstrip : stripCurrency (mkCurrency g0 gs fp) =
      ⟨(g0 ++ gs.flatten) ++ '.' :: fp⟩ := by
    show removeChar ',' (removeChar '$' (mkCurrency g0 gs fp)) = _
    have h1 : removeChar '$' (mkCurrency g0 gs fp) =
        ⟨g0 ++ (gs.map (fun g => ',' :: g)).flatten ++ '.' :: fp⟩ := by
      show String.mk (List.filter _ _) = _
      congr 1
      show List.filter (fun a => decide (a ≠ '$'))
          ('$' :: (g0 ++ (gs.map (fun g => ',' :: g)).flatten ++ '.' :: fp)) = _
      rw [List.filter_cons, if_neg (by decide)]
      apply filter_ne_eq_self
      intro c hc
      rcases List.mem_append.1 hc with h2 | h2
      · rcases List.mem_append.1 h2 with h3 | h3
        · exact (ne_specials_of_isDigit (hg0d c h3)).1
        · rcases hmid c h3 with rfl | h4
          · decide
          · exact (ne_specials_of_isDigit h4).1
      · rcases List.mem_cons.1 h2 with rfl | h3
        · decide
        · exact (ne_specials_of_isDigit (hfpd c h3)).1
    rw [h1]
    show String.mk (List.filter _ _) = _
    congr 1
    show (g0 ++ (gs.map (fun g => ',' :: g)).flatten ++ '.' :: fp).filter
        (fun a => a ≠ ',') = _
    rw [List.append_assoc, List.filter_append]
    have h2 : g0.filter (fun a => a ≠ ',') = g0 :=
      filter_ne_eq_self ',' g0 (fun c hc => (ne_specials_of_isDigit (hg0d c hc)).2.1)
    have h3 : ((gs.map (fun g => ',' :: g)).flatten ++ '.' :: fp).filter
        (fun a => a ≠ ',') = gs.flatten ++ '.' :: fp := by
      rw [List.filter_append, filter_comma_flatten gs hgsd]
      congr 1
      exact filter_ne_eq_self ',' ('.' :: fp) (fun c hc => by
        rcases List.mem_cons.1 hc with rfl | h4
        · decide
        · exact (ne_specials_of_isDigit (hfpd c h4)).2.1)
    rw [h2, h3, List.append_assoc]
  rw [hstrip]
  have hpd : ∀ c ∈ g0 ++ gs.flatten, (fun c => decide (c ≠ '.')) c = true :=
    fun c hc => by simpa using (ne_specials_of_isDigit (hd c hc)).2.2
  have hne : g0 ++ gs.flatten ≠ [] := by
    intro h0
    exact hg0 (List.append_eq_nil.1 h0).1
  have htw : List.takeWhile (fun c => decide (c ≠ '.')) ('.' :: fp) = [] := by
    simp
  have hdw : List.dropWhile (fun c => decide (c ≠ '.')) ('.' :: fp) = '.' :: fp := by
    simp
  simp only [pyFloat]
  rw [takeWhile_append_all _ _ _ hpd, dropWhile_append_all _ _ _ hpd, htw, hdw,
    List.append_nil]
  have hcond : (g0 ++ gs.flatten ≠ [] ∨ fp ≠ []) ∧
      (g0 ++ gs.flatten).all Char.isDigit = true ∧ fp.all Char.isDigit = true :=
    ⟨Or.inl hne, List.all_eq_true.2 hd, List.all_eq_true.2 hfpd⟩
  show (if (g0 ++ gs.flatten ≠ [] ∨ fp ≠ []) ∧
      (g0 ++ gs.flatten).all Char.isDigit = true ∧ fp.all Char.isDigit = true then
      some ((digitsToNat (g0 ++ gs.flatten) : ℚ) +
        (digitsToNat fp : ℚ) / (10 : ℚ) ^ fp.length)
    else none) = some (decimalValue (g0 ++ gs.flatten) fp)
  rw [if_pos hcond]
  rfl

/-- Witness for C7: the string `"$1,234.56"` parses to `1234.56`. -/
theorem currency_parse_witness :
    pyFloat (stripCurrency "$1,234.56") = some ((123456 : ℚ) / 100) := by
  have h := currency_parse ['1'] [['2', '3', '4']] ['5', '6'] (by decide)
    (by decide) (by decide) (by decide)
  have e1 : mkCurrency ['1'] [['2', '3', '4']] ['5', '6'] = "$1,234.56" := by decide
  rw [e1] at h
  rw [h]
  have d1 : digitsToNat (['1'] ++ ([['2', '3', '4']] : List (List Char)).flatten) =
      1234 := by decide
  have d2 : digitsToNat ['5', '6'] = 56 := by decide
  have dlen : (['5', '6'] : List Char).length = 2 := by decide
  simp only [decimalValue, d1, d2, dlen]
  norm_num

end Stocks
